import Mathlib

/-!
Verification of the incremental framing/decoding layer of `reqwest-streams`
(JSON-array, Protobuf length-prefixed, Arrow IPC, and newline/CSV framing)
against its natural-language specification.

The decoders are shallowly embedded from the Rust sources:
  * `src/json_array_codec.rs`   → `jsonStep` / `jsonScan` / `jsonDecode`
  * `src/protobuf_len_codec.rs` → `decode_varint_slice` / `protobufLenDecode`
  * `src/arrow_ipc_len_codec.rs`→ `arrowDecode`
  * `src/csv_stream.rs`, `src/json_stream.rs` → `runCsv`, `runJsonNl`
Byte buffers are `List Nat` (each element a byte value; `bytes::BytesMut`
only grows at the tail and is consumed at the head, which `List.drop`
models exactly).  Machine integers (`usize`, `u64`, `u32`) are modelled as
`Nat`; every place where Rust wrapping/underflow semantics could differ is
noted at the definition.  The value materializers (serde_json, prost, the
arrow `StreamDecoder`, the csv reader) are external libraries: frames are
emitted as their raw byte slices (the materializer is a deterministic
function of those bytes), or abstracted as an oracle parameter where the
control flow depends on their answer (Arrow).
-/

namespace ReqwestStreams

/-- Error kinds, embedded from `StreamBodyKind` in `src/error.rs`. -/
inductive StreamBodyKind where
  | CodecError
  | InputOutputError
  | MaxLenReachedError
deriving DecidableEq, Repr

/-- Outcome of one `decode` call of a `tokio_util::codec::Decoder`.
`more` is `Ok(None)` (need more input), `emit` is `Ok(Some _)`, `fail` is
`Err _`.  Since `decode` takes `&mut BytesMut`, the outcome carries the
buffer as left after the call.  `panicked` marks a Rust panic (e.g. `usize`
underflow, which aborts in debug builds and wraps in release builds); it is
kept observable so that safety claims can be settled. -/
inductive Out (σ ρ κ : Type) where
  | more (s : σ) (buf : List Nat)
  | emit (v : ρ) (s : σ) (buf : List Nat)
  | fail (k : κ)
  | panicked
deriving DecidableEq, Repr

/-- One item of the emitted sequence observed by the consumer of the
stream adapter: a decoded frame, a terminal error, or a panic. -/
inductive Ev (κ ρ : Type) where
  | val (v : ρ)
  | err (k : κ)
  | panicEv
deriving DecidableEq, Repr

/-- Modelled from the spec: the stream adapter's drain loop
(`tokio_util::codec::FramedRead`, which is not part of this repository):
after a refill the decoder is invoked repeatedly, collecting one frame per
call, until it reports "need more input" (then the next chunk is awaited)
or fails (the error is emitted and the sequence terminates).  The fuel
argument bounds the recursion; every decoder below consumes at least one
byte per emitted frame, so fuel `buf.length + 1` is never exhausted. -/
def drainF (dec : σ → List Nat → Out σ ρ κ) : Nat → σ → List Nat → List (Ev κ ρ) × Option (σ × List Nat)
  | 0, s, b => ([], some (s, b))
  | n+1, s, b =>
    match dec s b with
    | .more s' b' => ([], some (s', b'))
    | .emit v s' b' =>
      let r := drainF dec n s' b'
      (.val v :: r.1, r.2)
    | .fail k => ([.err k], none)
    | .panicked => ([.panicEv], none)

/-- Modelled from the spec: the stream adapter run over a list of transport
chunks.  Each chunk is appended to the buffer and the decoder drained; at
end-of-input the decoder (whose `decode_eof` is overridden to plain
`decode` in all codecs of this repository) is drained one final time, the
stream ending at its first "need more input" answer. -/
def runAux (dec : σ → List Nat → Out σ ρ κ) : σ → List Nat → List (List Nat) → List (Ev κ ρ)
  | s, b, [] => (drainF dec (b.length + 1) s b).1
  | s, b, c :: cs =>
    match drainF dec ((b ++ c).length + 1) s (b ++ c) with
    | (evs, none) => evs
    | (evs, some (s', b')) => evs ++ runAux dec s' b' cs

/-- Run a decoder from its initial state over a chunked byte stream. -/
def runChunks (dec : σ → List Nat → Out σ ρ κ) (s0 : σ) (chunks : List (List Nat)) : List (Ev κ ρ) :=
  runAux dec s0 [] chunks

/-! ## JSON-array codec (src/json_array_codec.rs) -/

/-- The scanning fields of `JsonCursor` (all fields of the Rust struct
except `current_offset`, which positions the scan in the buffer and is
kept next to these in `JsonCursor` below). -/
structure JsonScanState where
  array_is_opened : Bool
  delimiter_expected : Bool
  quote_opened : Bool
  escaped : Bool
  opened_brackets : Nat
  current_obj_pos : Nat
deriving DecidableEq, Repr

/-- The `JsonCursor` struct of `src/json_array_codec.rs`. -/
structure JsonCursor where
  current_offset : Nat
  scan : JsonScanState
deriving DecidableEq, Repr

/-- Result of processing one byte inside the scan loop of
`JsonArrayCodec::decode`. -/
inductive JsonStepRes where
  | cont (s : JsonScanState)
  | emitHere (s : JsonScanState)
  | fail (k : StreamBodyKind)
  | panicked
deriving DecidableEq, Repr

/-- One iteration of the `for (position, current_ch)` loop of
`JsonArrayCodec::decode` (src/json_array_codec.rs lines 57-127), at
absolute buffer index `i = current_offset + position`, on byte `b`.
The guard order matches the Rust `match` arms.  Byte values: 91 `[`,
34 `"`, 92 `\`, 123 `{`, 125 `}`, 44 `,`.  The `opened_brackets -= 1`
on a `}` at bracket depth 0 underflows the `usize` counter (panic in
debug builds, wrap-around in release builds); this is modelled as the
distinct `panicked` outcome. -/
def jsonStep (max i : Nat) (c : JsonScanState) (b : Nat) : JsonStepRes :=
  if max ≤ i then .fail .MaxLenReachedError
  else if b = 91 ∧ c.quote_opened = false ∧ c.opened_brackets = 0 then
    if c.array_is_opened then .fail .CodecError
    else .cont { c with array_is_opened := true }
  else if b = 34 ∧ c.escaped = false then
    .cont { c with quote_opened := !c.quote_opened }
  else if b = 92 ∧ c.quote_opened = true then
    .cont { c with escaped := true }
  else if b = 123 ∧ c.quote_opened = false then
    .cont { c with
      current_obj_pos := if c.opened_brackets = 0 then i else c.current_obj_pos,
      opened_brackets := c.opened_brackets + 1,
      escaped := false }
  else if b = 125 ∧ c.quote_opened = false then
    if c.opened_brackets = 0 then .panicked
    else if c.opened_brackets - 1 = 0 then
      .emitHere { c with opened_brackets := 0, escaped := false, delimiter_expected := true }
    else .cont { c with opened_brackets := c.opened_brackets - 1, escaped := false }
  else if b = 44 ∧ c.quote_opened = false ∧ c.opened_brackets = 0 ∧ c.delimiter_expected = false then
    .fail .CodecError
  else .cont { c with escaped := false }

/-- Result of scanning a byte range: either all bytes were consumed
(`more`), or a frame completed at absolute index `p` (`emitAt`), or the
scan failed/panicked. -/
inductive JsonScanRes where
  | more (s : JsonScanState)
  | emitAt (p : Nat) (s : JsonScanState)
  | fail (k : StreamBodyKind)
  | panicked
deriving DecidableEq, Repr

/-- The scan loop of `JsonArrayCodec::decode`, processing the byte list
`bs` whose head sits at absolute buffer index `i`. -/
def jsonScan (max : Nat) : Nat → JsonScanState → List Nat → JsonScanRes
  | _, c, [] => .more c
  | i, c, b :: bs =>
    match jsonStep max i c b with
    | .cont c' => jsonScan max (i+1) c' bs
    | .emitHere c' => .emitAt i c'
    | .fail k => .fail k
    | .panicked => .panicked

/-- `JsonArrayCodec::decode` (src/json_array_codec.rs lines 52-132): on an
empty buffer return `Ok(None)` untouched; otherwise scan from
`current_offset`.  On a completed object at index `p`, the frame is
`buf[current_obj_pos ..= p]`, the buffer is advanced past `p`, and
`current_obj_pos`/`current_offset` are reset to 0; if the scan exhausts
the buffer, `current_offset` is set to `buf.len()`. -/
def jsonDecode (max : Nat) (c : JsonCursor) (buf : List Nat) : Out JsonCursor (List Nat) StreamBodyKind :=
  if buf.isEmpty then .more c buf
  else
    match jsonScan max c.current_offset c.scan (buf.drop c.current_offset) with
    | .more s' => .more ⟨buf.length, s'⟩ buf
    | .emitAt p s' =>
        .emit ((buf.take (p+1)).drop s'.current_obj_pos)
          ⟨0, { s' with current_obj_pos := 0 }⟩ (buf.drop (p+1))
    | .fail k => .fail k
    | .panicked => .panicked

/-- The initial cursor built by `JsonArrayCodec::new_with_max_length`. -/
def initJsonCursor : JsonCursor := ⟨0, ⟨false, false, false, false, 0, 0⟩⟩

/-- The JSON-array stream (`json_array_stream` in src/json_stream.rs):
frames are the byte slices handed to the (external, deterministic)
`serde_json` materializer. -/
def runJson (max : Nat) (chunks : List (List Nat)) : List (Ev StreamBodyKind (List Nat)) :=
  runChunks (jsonDecode max) initJsonCursor chunks

/-! ## Protobuf length-prefixed codec (src/protobuf_len_codec.rs) -/

/-- Result of `decode_varint_slice`.  `invalid` is the
`Err(StreamBodyError::new(CodecError, _, "invalid varint"))` return;
`assertFailed` models a failure of the two `assert!` statements that
establish the function's documented safety precondition (a Rust panic). -/
inductive VRes where
  | ok (value advance : Nat)
  | invalid
  | assertFailed
deriving DecidableEq, Repr

/-- The fully unrolled LEB128 varint decoder `decode_varint_slice`
(src/protobuf_len_codec.rs lines 99-179), returning the value and the
number of bytes read.  Byte reads `bytes[i]` become `bytes.getD i 0`;
the asserted precondition (`!bytes.is_empty()` and `bytes.len() > 10 ||
bytes[len-1] < 0x80`) guarantees every read is in range, and its failure
is the `assertFailed` outcome.  All `u32`/`u64` arithmetic is exact here
(each subtraction removes a summand that was just added, and no sum can
reach `2^32`/`2^64`), so plain `Nat` arithmetic is faithful. -/
def decode_varint_slice (bytes : List Nat) : VRes :=
  if bytes.length = 0 then .assertFailed
  else if bytes.length ≤ 10 ∧ 128 ≤ bytes.getLastD 0 then .assertFailed
  else
    let b0 := bytes.getD 0 0
    let part0 := b0
    if b0 < 128 then .ok part0 1 else
    let part0 := part0 - 128
    let b1 := bytes.getD 1 0
    let part0 := part0 + b1 * 128
    if b1 < 128 then .ok part0 2 else
    let part0 := part0 - 128 * 128
    let b2 := bytes.getD 2 0
    let part0 := part0 + b2 * 16384
    if b2 < 128 then .ok part0 3 else
    let part0 := part0 - 128 * 16384
    let b3 := bytes.getD 3 0
    let part0 := part0 + b3 * 2097152
    if b3 < 128 then .ok part0 4 else
    let part0 := part0 - 128 * 2097152
    let value := part0
    let b4 := bytes.getD 4 0
    let part1 := b4
    if b4 < 128 then .ok (value + part1 * 268435456) 5 else
    let part1 := part1 - 128
    let b5 := bytes.getD 5 0
    let part1 := part1 + b5 * 128
    if b5 < 128 then .ok (value + part1 * 268435456) 6 else
    let part1 := part1 - 128 * 128
    let b6 := bytes.getD 6 0
    let part1 := part1 + b6 * 16384
    if b6 < 128 then .ok (value + part1 * 268435456) 7 else
    let part1 := part1 - 128 * 16384
    let b7 := bytes.getD 7 0
    let part1 := part1 + b7 * 2097152
    if b7 < 128 then .ok (value + part1 * 268435456) 8 else
    let part1 := part1 - 128 * 2097152
    let value := value + part1 * 268435456
    let b8 := bytes.getD 8 0
    let part2 := b8
    if b8 < 128 then .ok (value + part2 * 72057594037927936) 9 else
    let part2 := part2 - 128
    let b9 := bytes.getD 9 0
    let part2 := part2 + b9 * 128
    if b9 < 2 then .ok (value + part2 * 72057594037927936) 10 else
    .invalid

/-- `ProtobufLenPrefixCodec::decode` (src/protobuf_len_codec.rs lines
37-76).  The decoder state is the single field `current_obj_len` of
`ProtobufCursor` (0 = awaiting a length).  While awaiting a length:
a one-byte varint is taken from `bytes[0]` directly; otherwise
`decode_varint_slice` runs once the buffer is longer than 10 bytes or its
last byte has the continuation bit clear; otherwise wait.  With a length
recorded: fail with the max-length kind if it exceeds `max_length`, slice
exactly that many bytes for the (external) prost materializer once
buffered, else wait.  Frames are emitted as their raw byte slices. -/
def protobufLenDecode (max : Nat) (len : Nat) (buf : List Nat) : Out Nat (List Nat) StreamBodyKind :=
  if buf.length = 0 then .more len buf
  else if len = 0 then
    let b := buf.getD 0 0
    if b < 128 then .more b (buf.drop 1)
    else if buf.length > 10 ∨ buf.getLastD 0 < 128 then
      match decode_varint_slice buf with
      | .ok v adv => .more v (buf.drop adv)
      | .invalid => .fail .CodecError
      | .assertFailed => .panicked
    else .more len buf
  else if len > max then .fail .MaxLenReachedError
  else if buf.length ≥ len then .emit (buf.take len) 0 (buf.drop len)
  else .more len buf

/-- The Protobuf stream (`protobuf_stream` in src/protobuf_stream.rs). -/
def runProtobuf (max : Nat) (chunks : List (List Nat)) : List (Ev StreamBodyKind (List Nat)) :=
  runChunks (protobufLenDecode max) 0 chunks

/-- Modelled from the spec: standard LEB128 ("varint") encoding — the
companion encoder is not part of this repository.  Little-endian base-128:
each byte carries 7 value bits, with the continuation bit `0x80` set on
every byte except the last.  The fuel argument makes the recursion
structural; fuel 10 covers every value below `2^70`, hence every `u64`. -/
def lebAux : Nat → Nat → List Nat
  | 0, v => [v % 128]
  | n+1, v => if v < 128 then [v] else (v % 128 + 128) :: lebAux n (v / 128)

/-- Modelled from the spec: LEB128 encoding of a `u64` value. -/
def leb128 (v : Nat) : List Nat := lebAux 10 v

/-! ## Arrow IPC codec (src/arrow_ipc_len_codec.rs) -/

/-- State of `ArrowIpcCodec`: the `current_obj_len` field of
`ArrowIpcCursor` plus the state of the external
`arrow::ipc::reader::StreamDecoder`, abstracted as a type parameter. -/
structure ArrowState (σ : Type) where
  current_obj_len : Nat
  ext : σ
deriving DecidableEq, Repr

/-- Little-endian `u32` read of the first four bytes of a list
(`Bytes::get_u32_le`). -/
def leU32 (bytes : List Nat) : Nat :=
  bytes.getD 0 0 + bytes.getD 1 0 * 256 + bytes.getD 2 0 * 65536 + bytes.getD 3 0 * 16777216

/-- The expected frame length computed from the first eight buffered bytes
in `ArrowIpcCodec::decode`: the first little-endian `u32`; if it is the
IPC continuation marker `0xFFFFFFFF`, the length is instead read from the
following four bytes and increased by 4; plus 4 for the length word
itself.  Both additions are `u32` arithmetic in the source, so they wrap
modulo `2^32` (release-build semantics; a debug build would panic at the
overflow): a first word of `0xFFFFFFFC` records length 0, leaving the
decoder in awaiting-length state. -/
def arrowExpectedLen (buf : List Nat) : Nat :=
  let possible_len := leU32 (buf.take 4)
  let possible_len :=
    if possible_len = 4294967295 then (leU32 ((buf.drop 4).take 4) + 4) % 4294967296
    else possible_len
  (possible_len + 4) % 4294967296

/-- `ArrowIpcCodec::decode` (src/arrow_ipc_len_codec.rs lines 38-76),
parametrized by the external `StreamDecoder` transition `extDec`: fed the
decoder state and the sliced bytes, it returns either a decode error or a
new state with an optional completed record batch.  With no pending
length and at least 8 buffered bytes, the expected length is recorded (the
buffer is not advanced) and the call returns `Ok(None)`; with a pending
length the max bound is checked first, then once enough bytes are
buffered exactly `current_obj_len` bytes (including the 8-byte prefix
itself) are sliced off and handed to the external decoder.  The `u32`
length arithmetic wraps modulo `2^32`, see `arrowExpectedLen`. -/
def arrowDecode (extDec : σ → List Nat → Except Unit (σ × Option ρ)) (max : Nat)
    (s : ArrowState σ) (buf : List Nat) : Out (ArrowState σ) ρ StreamBodyKind :=
  if buf.length = 0 then .more s buf
  else if s.current_obj_len = 0 then
    if buf.length < 8 then .more s buf
    else .more { s with current_obj_len := arrowExpectedLen buf } buf
  else if s.current_obj_len > max then .fail .MaxLenReachedError
  else if buf.length ≥ s.current_obj_len then
    match extDec s.ext (buf.take s.current_obj_len) with
    | .ok (e', some r) => .emit r ⟨0, e'⟩ (buf.drop s.current_obj_len)
    | .ok (e', none) => .more ⟨0, e'⟩ (buf.drop s.current_obj_len)
    | .error _ => .fail .CodecError
  else .more s buf

/-- The Arrow IPC stream (`arrow_ipc_stream` in src/arrow_ipc_stream.rs),
from the initial external-decoder state `e0`. -/
def runArrow (extDec : σ → List Nat → Except Unit (σ × Option ρ)) (e0 : σ) (max : Nat)
    (chunks : List (List Nat)) : List (Ev StreamBodyKind ρ) :=
  runChunks (arrowDecode extDec max) ⟨0, e0⟩ chunks

/-- State of the algorithm the spec describes for the Arrow decoder: a
running undecoded-byte counter plus the external decoder state. -/
structure SpecArrowState (σ : Type) where
  undecoded : Nat
  ext : σ
deriving DecidableEq, Repr

/-- Modelled from the spec (§4.4), for comparison with `arrowDecode`:
"On every call: hand the currently buffered bytes to the external decoder;
if it reports no record yet, add the buffered length to a running
undecoded-byte counter and fail if that counter exceeds the bound; if it
produces a record, reset the counter to zero, advance the buffer by
exactly the number of bytes the external decoder consumed, and emit that
record."  The external decoder here additionally reports how many bytes
it consumed. -/
def specArrowDecode (extDec : σ → List Nat → Except Unit (σ × Option ρ × Nat)) (max : Nat)
    (s : SpecArrowState σ) (buf : List Nat) : Out (SpecArrowState σ) ρ StreamBodyKind :=
  if buf.length = 0 then .more s buf
  else
    match extDec s.ext buf with
    | .ok (e', some r, consumed) => .emit r ⟨0, e'⟩ (buf.drop consumed)
    | .ok (e', none, _) =>
      if s.undecoded + buf.length > max then .fail .MaxLenReachedError
      else .more ⟨s.undecoded + buf.length, e'⟩ buf
    | .error _ => .fail .CodecError

/-- Run of the spec-described Arrow algorithm. -/
def runArrowSpec (extDec : σ → List Nat → Except Unit (σ × Option ρ × Nat)) (e0 : σ) (max : Nat)
    (chunks : List (List Nat)) : List (Ev StreamBodyKind ρ) :=
  runChunks (specArrowDecode extDec max) ⟨0, e0⟩ chunks

/-- External Arrow decoder oracle that never completes a record (as for a
stream whose buffered bytes do not yet contain a full record batch). -/
def arrowExtNone : Unit → List Nat → Except Unit (Unit × Option Unit) :=
  fun _ _ => .ok ((), none)

/-- The same never-completing oracle in the spec model's signature. -/
def arrowSpecExtNone : Unit → List Nat → Except Unit (Unit × Option Unit × Nat) :=
  fun _ _ => .ok ((), none, 0)

/-- External Arrow decoder oracle that always completes a record. -/
def arrowExtSome : Unit → List Nat → Except Unit (Unit × Option Unit) :=
  fun _ _ => .ok ((), some ())

/-- Two consecutive 12-byte Arrow frames, each a 4-byte little-endian
length word `8` followed by 8 bytes (so the recorded expected length is
`8 + 4 = 12`). -/
def arrowTwoFrames : List Nat :=
  [8, 0, 0, 0, 0, 0, 0, 0, 0, 0, 0, 0, 8, 0, 0, 0, 0, 0, 0, 0, 0, 0, 0, 0]

/-! ## Newline framing and the CSV / JSON-lines adapters
(src/csv_stream.rs, src/json_stream.rs) -/

/-- Error type of the newline framing codec
(`tokio_util::codec::LinesCodecError`, external to this repository). -/
inductive LinesCodecErr where
  | maxLineLengthExceeded
  | ioError
deriving DecidableEq, Repr

/-- Modelled from the spec (§4.5), standing in for the external
`tokio_util::codec::LinesCodec` used by `csv_stream` and `json_nl_stream`
(the codec itself is not part of this repository): "scan for the first
`\n` in the unscanned region; if found, the line is bytes `[0, pos)`,
advance past `pos+1`; if the accumulated unscanned length without a
newline exceeds the max-length bound, fail with a max-length error;
otherwise await more input."  The state is the scan position within the
buffer.  (The line codec's end-of-input flush of a trailing unterminated
line is not modelled; no claim depends on it.) -/
def linesDecode (max : Nat) (next_index : Nat) (buf : List Nat) :
    Out Nat (List Nat) LinesCodecErr :=
  match (buf.drop next_index).findIdx? (· == 10) with
  | some i => .emit (buf.take (next_index + i)) 0 (buf.drop (next_index + i + 1))
  | none =>
    if buf.length > max then .fail .maxLineLengthExceeded
    else .more buf.length buf

/-- The per-item mapping applied by `csv_stream` (src/csv_stream.rs lines
43-74): a framed line is parsed by the external csv reader — abstracted
as `parseRow`, whose `none` covers both a failed deserialize and an empty
record iterator — and every framing error, including the line codec's
max-line-length failure, is wrapped as `StreamBodyKind::CodecError`. -/
def csvMapEv (parseRow : List Nat → Option ρ) : Ev LinesCodecErr (List Nat) → Ev StreamBodyKind ρ
  | .val line =>
    match parseRow line with
    | some r => .val r
    | none => .err .CodecError
  | .err _ => .err .CodecError
  | .panicEv => .panicEv

/-- The CSV stream `csv_stream` (src/csv_stream.rs lines 23-76): newline
framing bounded by `max_obj_len`, skipping the first emitted item when
`with_csv_header` is set (the `.skip(..)` in the source), then the
per-item mapping.  The csv delimiter is internal to the abstracted
`parseRow`. -/
def runCsv (parseRow : List Nat → Option ρ) (max : Nat) (with_csv_header : Bool)
    (chunks : List (List Nat)) : List (Ev StreamBodyKind ρ) :=
  ((runChunks (linesDecode max) 0 chunks).drop (if with_csv_header then 1 else 0)).map
    (csvMapEv parseRow)

/-- The per-item mapping applied by `json_nl_stream_with_capacity`
(src/json_stream.rs lines 188-201): the line is parsed by `serde_json`
(abstracted as `parseLine`), and every framing error — including the line
codec's max-line-length failure — is wrapped as
`StreamBodyKind::CodecError`. -/
def jsonNlMapEv (parseLine : List Nat → Option ρ) :
    Ev LinesCodecErr (List Nat) → Ev StreamBodyKind ρ
  | .val line =>
    match parseLine line with
    | some r => .val r
    | none => .err .CodecError
  | .err _ => .err .CodecError
  | .panicEv => .panicEv

/-- The JSON-lines stream `json_nl_stream` (src/json_stream.rs lines
164-202). -/
def runJsonNl (parseLine : List Nat → Option ρ) (max : Nat) (chunks : List (List Nat)) :
    List (Ev StreamBodyKind ρ) :=
  (runChunks (linesDecode max) 0 chunks).map (jsonNlMapEv parseLine)

/-! ## Varint round trip and rejection -/

/-- Step over a refuted numeric comparison in the unrolled varint
decoder. -/
theorem ite_lt_neg {x y : Nat} {α : Sort u} (h : y ≤ x) {a b : α} :
    (if x < y then a else b) = b := if_neg (by omega)

/-- Step over an affirmed numeric comparison in the unrolled varint
decoder. -/
theorem ite_lt_pos {x y : Nat} {α : Sort u} (h : x < y) {a b : α} :
    (if x < y then a else b) = a := if_pos h

/-- Decoding the LEB128 encoding of any `u64` value returns that value
together with the number of encoded bytes. -/
theorem decode_varint_leb128 (v : Nat) (hv : v < 18446744073709551616) :
    decode_varint_slice (leb128 v) = .ok v (leb128 v).length := by
  rcases Nat.lt_or_ge v 128 with h1 | h1
  · have he : leb128 v = [v] := by
      simp only [leb128, lebAux]; rw [ite_lt_pos h1]
    have hlast : List.getLastD [v] 0 = v := rfl
    rw [he]
    simp only [decode_varint_slice, List.getD_cons_zero, List.getD_cons_succ, hlast,
      List.length_cons, List.length_nil]
    rw [if_neg (by omega), if_neg (by omega), ite_lt_pos h1]
  rcases Nat.lt_or_ge v 16384 with h2 | h2
  · have he : leb128 v = [v % 128 + 128, v / 128] := by
      simp only [leb128, lebAux]; rw [ite_lt_neg (by omega), ite_lt_pos (by omega)]
    have hlast : List.getLastD [v % 128 + 128, v / 128] 0 = v / 128 := rfl
    rw [he]
    simp only [decode_varint_slice, List.getD_cons_zero, List.getD_cons_succ, hlast,
      List.length_cons, List.length_nil]
    rw [if_neg (by omega), if_neg (by omega), ite_lt_neg (by omega), ite_lt_pos (by omega)]
    congr 1
    omega
  rcases Nat.lt_or_ge v 2097152 with h3 | h3
  · have he : leb128 v = [v % 128 + 128, v / 128 % 128 + 128, v / 128 / 128] := by
      simp only [leb128, lebAux]
      rw [if_neg (by omega), if_neg (by omega), ite_lt_pos (by omega)]
    have hlast : List.getLastD [v % 128 + 128, v / 128 % 128 + 128, v / 128 / 128] 0
        = v / 128 / 128 := rfl
    rw [he]
    simp only [decode_varint_slice, List.getD_cons_zero, List.getD_cons_succ, hlast,
      List.length_cons, List.length_nil]
    rw [if_neg (by omega), if_neg (by omega), ite_lt_neg (by omega), ite_lt_neg (by omega),
      ite_lt_pos (by omega)]
    congr 1
    omega
  rcases Nat.lt_or_ge v 268435456 with h4 | h4
  · have he : leb128 v = [v % 128 + 128, v / 128 % 128 + 128, v / 128 / 128 % 128 + 128,
        v / 128 / 128 / 128] := by
      simp only [leb128, lebAux]
      rw [if_neg (by omega), if_neg (by omega), ite_lt_neg (by omega), ite_lt_pos (by omega)]
    have hlast : List.getLastD [v % 128 + 128, v / 128 % 128 + 128, v / 128 / 128 % 128 + 128,
        v / 128 / 128 / 128] 0 = v / 128 / 128 / 128 := rfl
    rw [he]
    simp only [decode_varint_slice, List.getD_cons_zero, List.getD_cons_succ, hlast,
      List.length_cons, List.length_nil]
    rw [if_neg (by omega), if_neg (by omega), ite_lt_neg (by omega), ite_lt_neg (by omega),
      ite_lt_neg (by omega), ite_lt_pos (by omega)]
    congr 1
    omega
  rcases Nat.lt_or_ge v 34359738368 with h5 | h5
  · have he : leb128 v = [v % 128 + 128, v / 128 % 128 + 128, v / 128 / 128 % 128 + 128,
        v / 128 / 128 / 128 % 128 + 128, v / 128 / 128 / 128 / 128] := by
      simp only [leb128, lebAux]
      rw [if_neg (by omega), if_neg (by omega), ite_lt_neg (by omega), ite_lt_neg (by omega),
        ite_lt_pos (by omega)]
    have hlast : List.getLastD [v % 128 + 128, v / 128 % 128 + 128, v / 128 / 128 % 128 + 128,
        v / 128 / 128 / 128 % 128 + 128, v / 128 / 128 / 128 / 128] 0
        = v / 128 / 128 / 128 / 128 := rfl
    rw [he]
    simp only [decode_varint_slice, List.getD_cons_zero, List.getD_cons_succ, hlast,
      List.length_cons, List.length_nil]
    rw [if_neg (by omega), if_neg (by omega), ite_lt_neg (by omega), ite_lt_neg (by omega),
      ite_lt_neg (by omega), ite_lt_neg (by omega), ite_lt_pos (by omega)]
    congr 1
    omega
  rcases Nat.lt_or_ge v 4398046511104 with h6 | h6
  · have he : leb128 v = [v % 128 + 128, v / 128 % 128 + 128, v / 128 / 128 % 128 + 128,
        v / 128 / 128 / 128 % 128 + 128, v / 128 / 128 / 128 / 128 % 128 + 128,
        v / 128 / 128 / 128 / 128 / 128] := by
      simp only [leb128, lebAux]
      rw [if_neg (by omega), if_neg (by omega), ite_lt_neg (by omega), ite_lt_neg (by omega),
        ite_lt_neg (by omega), ite_lt_pos (by omega)]
    have hlast : List.getLastD [v % 128 + 128, v / 128 % 128 + 128, v / 128 / 128 % 128 + 128,
        v / 128 / 128 / 128 % 128 + 128, v / 128 / 128 / 128 / 128 % 128 + 128,
        v / 128 / 128 / 128 / 128 / 128] 0 = v / 128 / 128 / 128 / 128 / 128 := rfl
    rw [he]
    simp only [decode_varint_slice, List.getD_cons_zero, List.getD_cons_succ, hlast,
      List.length_cons, List.length_nil]
    rw [if_neg (by omega), if_neg (by omega), ite_lt_neg (by omega), ite_lt_neg (by omega),
      ite_lt_neg (by omega), ite_lt_neg (by omega), ite_lt_neg (by omega), ite_lt_pos (by omega)]
    congr 1
    omega
  rcases Nat.lt_or_ge v 562949953421312 with h7 | h7
  · have he : leb128 v = [v % 128 + 128, v / 128 % 128 + 128, v / 128 / 128 % 128 + 128,
        v / 128 / 128 / 128 % 128 + 128, v / 128 / 128 / 128 / 128 % 128 + 128,
        v / 128 / 128 / 128 / 128 / 128 % 128 + 128, v / 128 / 128 / 128 / 128 / 128 / 128] := by
      simp only [leb128, lebAux]
      rw [if_neg (by omega), if_neg (by omega), ite_lt_neg (by omega), ite_lt_neg (by omega),
        ite_lt_neg (by omega), ite_lt_neg (by omega), ite_lt_pos (by omega)]
    have hlast : List.getLastD [v % 128 + 128, v / 128 % 128 + 128, v / 128 / 128 % 128 + 128,
        v / 128 / 128 / 128 % 128 + 128, v / 128 / 128 / 128 / 128 % 128 + 128,
        v / 128 / 128 / 128 / 128 / 128 % 128 + 128, v / 128 / 128 / 128 / 128 / 128 / 128] 0
        = v / 128 / 128 / 128 / 128 / 128 / 128 := rfl
    rw [he]
    simp only [decode_varint_slice, List.getD_cons_zero, List.getD_cons_succ, hlast,
      List.length_cons, List.length_nil]
    rw [if_neg (by omega), if_neg (by omega), ite_lt_neg (by omega), ite_lt_neg (by omega),
      ite_lt_neg (by omega), ite_lt_neg (by omega), ite_lt_neg (by omega), ite_lt_neg (by omega),
      ite_lt_pos (by omega)]
    congr 1
    omega
  rcases Nat.lt_or_ge v 72057594037927936 with h8 | h8
  · have he : leb128 v = [v % 128 + 128, v / 128 % 128 + 128, v / 128 / 128 % 128 + 128,
        v / 128 / 128 / 128 % 128 + 128, v / 128 / 128 / 128 / 128 % 128 + 128,
        v / 128 / 128 / 128 / 128 / 128 % 128 + 128,
        v / 128 / 128 / 128 / 128 / 128 / 128 % 128 + 128,
        v / 128 / 128 / 128 / 128 / 128 / 128 / 128] := by
      simp only [leb128, lebAux]
      rw [if_neg (by omega), if_neg (by omega), ite_lt_neg (by omega), ite_lt_neg (by omega),
        ite_lt_neg (by omega), ite_lt_neg (by omega), ite_lt_neg (by omega), ite_lt_pos (by omega)]
    have hlast : List.getLastD [v % 128 + 128, v / 128 % 128 + 128, v / 128 / 128 % 128 + 128,
        v / 128 / 128 / 128 % 128 + 128, v / 128 / 128 / 128 / 128 % 128 + 128,
        v / 128 / 128 / 128 / 128 / 128 % 128 + 128,
        v / 128 / 128 / 128 / 128 / 128 / 128 % 128 + 128,
        v / 128 / 128 / 128 / 128 / 128 / 128 / 128] 0
        = v / 128 / 128 / 128 / 128 / 128 / 128 / 128 := rfl
    rw [he]
    simp only [decode_varint_slice, List.getD_cons_zero, List.getD_cons_succ, hlast,
      List.length_cons, List.length_nil]
    rw [if_neg (by omega), if_neg (by omega), ite_lt_neg (by omega), ite_lt_neg (by omega),
      ite_lt_neg (by omega), ite_lt_neg (by omega), ite_lt_neg (by omega), ite_lt_neg (by omega),
      ite_lt_neg (by omega), ite_lt_pos (by omega)]
    congr 1
    omega
  rcases Nat.lt_or_ge v 9223372036854775808 with h9 | h9
  · have he : leb128 v = [v % 128 + 128, v / 128 % 128 + 128, v / 128 / 128 % 128 + 128,
        v / 128 / 128 / 128 % 128 + 128, v / 128 / 128 / 128 / 128 % 128 + 128,
        v / 128 / 128 / 128 / 128 / 128 % 128 + 128,
        v / 128 / 128 / 128 / 128 / 128 / 128 % 128 + 128,
        v / 128 / 128 / 128 / 128 / 128 / 128 / 128 % 128 + 128,
        v / 128 / 128 / 128 / 128 / 128 / 128 / 128 / 128] := by
      simp only [leb128, lebAux]
      rw [if_neg (by omega), if_neg (by omega), ite_lt_neg (by omega), ite_lt_neg (by omega),
        ite_lt_neg (by omega), ite_lt_neg (by omega), ite_lt_neg (by omega), ite_lt_neg (by omega),
        ite_lt_pos (by omega)]
    have hlast : List.getLastD [v % 128 + 128, v / 128 % 128 + 128, v / 128 / 128 % 128 + 128,
        v / 128 / 128 / 128 % 128 + 128, v / 128 / 128 / 128 / 128 % 128 + 128,
        v / 128 / 128 / 128 / 128 / 128 % 128 + 128,
        v / 128 / 128 / 128 / 128 / 128 / 128 % 128 + 128,
        v / 128 / 128 / 128 / 128 / 128 / 128 / 128 % 128 + 128,
        v / 128 / 128 / 128 / 128 / 128 / 128 / 128 / 128] 0
        = v / 128 / 128 / 128 / 128 / 128 / 128 / 128 / 128 := rfl
    rw [he]
    simp only [decode_varint_slice, List.getD_cons_zero, List.getD_cons_succ, hlast,
      List.length_cons, List.length_nil]
    rw [if_neg (by omega), if_neg (by omega), ite_lt_neg (by omega), ite_lt_neg (by omega),
      ite_lt_neg (by omega), ite_lt_neg (by omega), ite_lt_neg (by omega), ite_lt_neg (by omega),
      ite_lt_neg (by omega), ite_lt_neg (by omega), ite_lt_pos (by omega)]
    congr 1
    omega
  · have he : leb128 v = [v % 128 + 128, v / 128 % 128 + 128, v / 128 / 128 % 128 + 128,
        v / 128 / 128 / 128 % 128 + 128, v / 128 / 128 / 128 / 128 % 128 + 128,
        v / 128 / 128 / 128 / 128 / 128 % 128 + 128,
        v / 128 / 128 / 128 / 128 / 128 / 128 % 128 + 128,
        v / 128 / 128 / 128 / 128 / 128 / 128 / 128 % 128 + 128,
        v / 128 / 128 / 128 / 128 / 128 / 128 / 128 / 128 % 128 + 128,
        v / 128 / 128 / 128 / 128 / 128 / 128 / 128 / 128 / 128] := by
      simp only [leb128, lebAux]
      rw [if_neg (by omega), if_neg (by omega), ite_lt_neg (by omega), ite_lt_neg (by omega),
        ite_lt_neg (by omega), ite_lt_neg (by omega), ite_lt_neg (by omega), ite_lt_neg (by omega),
        ite_lt_neg (by omega), ite_lt_pos (by omega)]
    have hlast : List.getLastD [v % 128 + 128, v / 128 % 128 + 128, v / 128 / 128 % 128 + 128,
        v / 128 / 128 / 128 % 128 + 128, v / 128 / 128 / 128 / 128 % 128 + 128,
        v / 128 / 128 / 128 / 128 / 128 % 128 + 128,
        v / 128 / 128 / 128 / 128 / 128 / 128 % 128 + 128,
        v / 128 / 128 / 128 / 128 / 128 / 128 / 128 % 128 + 128,
        v / 128 / 128 / 128 / 128 / 128 / 128 / 128 / 128 % 128 + 128,
        v / 128 / 128 / 128 / 128 / 128 / 128 / 128 / 128 / 128] 0
        = v / 128 / 128 / 128 / 128 / 128 / 128 / 128 / 128 / 128 := rfl
    rw [he]
    simp only [decode_varint_slice, List.getD_cons_zero, List.getD_cons_succ, hlast,
      List.length_cons, List.length_nil]
    rw [if_neg (by omega), if_neg (by omega), ite_lt_neg (by omega), ite_lt_neg (by omega),
      ite_lt_neg (by omega), ite_lt_neg (by omega), ite_lt_neg (by omega), ite_lt_neg (by omega),
      ite_lt_neg (by omega), ite_lt_neg (by omega), ite_lt_neg (by omega), ite_lt_pos (by omega)]
    congr 1
    omega

/-- A 10-byte input whose first nine bytes all carry the continuation bit
and whose final byte is below `0x80` but at least `0x02` overflows 64 bits
and is rejected as an invalid varint (a codec error in the codec). -/
theorem decode_varint_ten_bytes_overflow (b0 b1 b2 b3 b4 b5 b6 b7 b8 b9 : Nat)
    (h0 : 128 ≤ b0) (h1 : 128 ≤ b1) (h2 : 128 ≤ b2) (h3 : 128 ≤ b3) (h4 : 128 ≤ b4)
    (h5 : 128 ≤ b5) (h6 : 128 ≤ b6) (h7 : 128 ≤ b7) (h8 : 128 ≤ b8)
    (h9a : 2 ≤ b9) (h9b : b9 < 128) :
    decode_varint_slice [b0, b1, b2, b3, b4, b5, b6, b7, b8, b9] = .invalid := by
  have hlast : List.getLastD [b0, b1, b2, b3, b4, b5, b6, b7, b8, b9] 0 = b9 := rfl
  simp only [decode_varint_slice, List.getD_cons_zero, List.getD_cons_succ, hlast,
    List.length_cons, List.length_nil]
  rw [if_neg (by omega), if_neg (by omega), ite_lt_neg (by omega), ite_lt_neg (by omega),
    ite_lt_neg (by omega), ite_lt_neg (by omega), ite_lt_neg (by omega), ite_lt_neg (by omega),
    ite_lt_neg (by omega), ite_lt_neg (by omega), ite_lt_neg (by omega), ite_lt_neg (by omega)]

/-- An input of at least 11 bytes whose first ten bytes all carry the
continuation bit is rejected as an invalid varint; this is the shape under
which the codec (which waits until the buffer exceeds 10 bytes when the
last buffered byte still has its continuation bit set) observes a varint
whose tenth byte has the continuation bit set. -/
theorem decode_varint_cont_run_invalid (b0 b1 b2 b3 b4 b5 b6 b7 b8 b9 b10 : Nat)
    (h0 : 128 ≤ b0) (h1 : 128 ≤ b1) (h2 : 128 ≤ b2) (h3 : 128 ≤ b3) (h4 : 128 ≤ b4)
    (h5 : 128 ≤ b5) (h6 : 128 ≤ b6) (h7 : 128 ≤ b7) (h8 : 128 ≤ b8) (h9 : 128 ≤ b9) :
    decode_varint_slice [b0, b1, b2, b3, b4, b5, b6, b7, b8, b9, b10] = .invalid := by
  simp only [decode_varint_slice, List.getD_cons_zero, List.getD_cons_succ,
    List.length_cons, List.length_nil]
  rw [if_neg (by omega), if_neg (by omega), ite_lt_neg (by omega), ite_lt_neg (by omega),
    ite_lt_neg (by omega), ite_lt_neg (by omega), ite_lt_neg (by omega), ite_lt_neg (by omega),
    ite_lt_neg (by omega), ite_lt_neg (by omega), ite_lt_neg (by omega), ite_lt_neg (by omega)]

/-! ## Chunk-boundary invariance of the JSON-array decoder

The scan of `JsonArrayCodec::decode` processes each buffered byte exactly
once, at an absolute index counted from the last consumed frame, and its
per-byte transition depends only on that index and the bytes already seen.
The lemmas below make this precise and culminate in full chunk-boundary
invariance of the emitted event sequence. -/

/-- Scanning a concatenation first scans the left part; only if that part
is exhausted does the scan continue into the right part, at the shifted
absolute index. -/
theorem jsonScan_append (max : Nat) (xs ys : List Nat) : ∀ (i : Nat) (c : JsonScanState),
    jsonScan max i c (xs ++ ys) =
      match jsonScan max i c xs with
      | .more c' => jsonScan max (i + xs.length) c' ys
      | .emitAt p c' => .emitAt p c'
      | .fail k => .fail k
      | .panicked => .panicked := by
  induction xs with
  | nil => intro i c; simp [jsonScan]
  | cons x xs ih =>
    intro i c
    simp only [List.cons_append, jsonScan]
    cases h : jsonStep max i c x with
    | cont c' =>
      dsimp only [List.append_eq]
      rw [ih (i + 1) c']
      have hidx : i + 1 + xs.length = i + (x :: xs).length := by
        simp [List.length_cons]; omega
      rw [hidx]
    | emitHere c' => rfl
    | fail k => rfl
    | panicked => rfl

/-- A frame completed by the scan completes at the absolute index of one
of the scanned bytes. -/
theorem jsonScan_emitAt_bounds (max : Nat) (xs : List Nat) :
    ∀ (i : Nat) (c : JsonScanState) (p : Nat) (c' : JsonScanState),
    jsonScan max i c xs = .emitAt p c' → i ≤ p ∧ p < i + xs.length := by
  induction xs with
  | nil => intro i c p c' h; exact nomatch h
  | cons x xs ih =>
    intro i c p c' h
    simp only [jsonScan] at h
    split at h
    · have := ih (i + 1) _ p c' h
      simp only [List.length_cons]
      omega
    · cases h
      simp only [List.length_cons]
      omega
    · exact nomatch h
    · exact nomatch h

/-- A `decode` call that emits a frame strictly shrinks the buffer. -/
theorem jsonDecode_emit_lt (max : Nat) (c : JsonCursor) (buf f : List Nat) (c' : JsonCursor)
    (b' : List Nat) (h : jsonDecode max c buf = .emit f c' b') :
    b'.length < buf.length ∧ c'.current_offset = 0 := by
  by_cases hB : buf = []
  · subst hB; exact nomatch h
  · simp only [jsonDecode, List.isEmpty_eq_true, hB, if_false] at h
    split at h
    · exact nomatch h
    case _ p s' heq =>
      obtain ⟨h1, h2⟩ := jsonScan_emitAt_bounds max _ _ _ _ _ heq
      cases h
      have hlen : 0 < buf.length := List.length_pos.mpr hB
      refine ⟨?_, rfl⟩
      simp only [List.length_drop]
      omega
    · exact nomatch h
    · exact nomatch h

/-- Extending the buffer commutes with `decode`: a decode over the
extended buffer behaves like the decode over the original buffer, with
the appended bytes either scanned afterwards (from the recorded offset)
or left behind the emitted frame. -/
theorem jsonDecode_append (max : Nat) (c : JsonCursor) (B ys : List Nat)
    (hc : c.current_offset ≤ B.length) :
    jsonDecode max c (B ++ ys) =
      match jsonDecode max c B with
      | .more c' _ => jsonDecode max c' (B ++ ys)
      | .emit f c' B' => .emit f c' (B' ++ ys)
      | .fail k => .fail k
      | .panicked => .panicked := by
  by_cases hB : B = []
  · subst hB
    simp [jsonDecode]
  have hBy : ¬(B ++ ys = []) := fun hh => hB (by cases B <;> simp_all)
  have hdropA : (B ++ ys).drop c.current_offset = B.drop c.current_offset ++ ys :=
    List.drop_append_of_le_length hc
  have hlen : c.current_offset + (B.drop c.current_offset).length = B.length := by
    simp only [List.length_drop]; omega
  simp only [jsonDecode, List.isEmpty_eq_true, hB, hBy, if_false, hdropA,
    jsonScan_append, hlen]
  cases hs : jsonScan max c.current_offset c.scan (B.drop c.current_offset) with
  | more s' =>
    dsimp only
    have hdropB : (B ++ ys).drop B.length = ys := by
      rw [List.drop_append_of_le_length (Nat.le_refl _), List.drop_length, List.nil_append]
    simp only [jsonDecode, List.isEmpty_eq_true, hBy, if_false, hdropB]
  | emitAt p s' =>
    dsimp only
    obtain ⟨h1, h2⟩ := jsonScan_emitAt_bounds max _ _ _ _ _ hs
    have hp : p + 1 ≤ B.length := by
      simp only [List.length_drop] at h2; omega
    rw [List.take_append_of_le_length hp, List.drop_append_of_le_length hp]
  | fail k => rfl
  | panicked => rfl

/-- Facts about a `decode` call that reports "need more input": the buffer
is untouched, the recorded offset is the buffer length, and the decoder is
stable (calling `decode` again changes nothing and emits nothing). -/
theorem jsonDecode_more_facts (max : Nat) (c : JsonCursor) (buf : List Nat)
    (hc : c.current_offset ≤ buf.length) (c' : JsonCursor) (b' : List Nat)
    (h : jsonDecode max c buf = .more c' b') :
    b' = buf ∧ c'.current_offset = b'.length ∧ jsonDecode max c' b' = .more c' b' := by
  by_cases hB : buf = []
  · subst hB
    simp only [jsonDecode, List.isEmpty_nil, if_true] at h
    cases h
    refine ⟨rfl, ?_, by simp [jsonDecode]⟩
    simp only [List.length_nil] at hc ⊢
    omega
  · simp only [jsonDecode, List.isEmpty_eq_true, hB, if_false] at h
    split at h
    case _ s' heq =>
      cases h
      refine ⟨rfl, rfl, ?_⟩
      simp only [jsonDecode, List.isEmpty_eq_true, hB, if_false, List.drop_length]
      simp [jsonScan]
    · exact nomatch h
    · exact nomatch h
    · exact nomatch h

/-- With adequate fuel (more than the buffer length) the result of a
drain does not depend on the exact fuel. -/
theorem jsonDrainF_congr (max : Nat) (b : List Nat) (n m : Nat) (c : JsonCursor)
    (hn : b.length < n) (hm : b.length < m) :
    drainF (jsonDecode max) n c b = drainF (jsonDecode max) m c b := by
  obtain ⟨n', rfl⟩ : ∃ n', n = n' + 1 := ⟨n - 1, by omega⟩
  obtain ⟨m', rfl⟩ : ∃ m', m = m' + 1 := ⟨m - 1, by omega⟩
  simp only [drainF]
  cases hd : jsonDecode max c b with
  | more s' b' => rfl
  | emit v s' b' =>
    have hlt := (jsonDecode_emit_lt max c b v s' b' hd).1
    have hrec := jsonDrainF_congr max b' n' m' s' (by omega) (by omega)
    dsimp only
    rw [hrec]
  | fail k => rfl
  | panicked => rfl
termination_by b.length
decreasing_by exact hlt

/-- Post-state facts of a drain with adequate fuel: if the drain ends
awaiting more input, the leftover buffer is no longer than the input
buffer, the recorded offset equals the leftover length, and the decoder
is stable at the reached state. -/
theorem jsonDrainF_post (max : Nat) (b : List Nat) (n : Nat) (c : JsonCursor)
    (hc : c.current_offset ≤ b.length) (hn : b.length < n) (c' : JsonCursor) (b' : List Nat)
    (h : (drainF (jsonDecode max) n c b).2 = some (c', b')) :
    b'.length ≤ b.length ∧ c'.current_offset = b'.length ∧
      jsonDecode max c' b' = .more c' b' := by
  obtain ⟨n', rfl⟩ : ∃ n', n = n' + 1 := ⟨n - 1, by omega⟩
  cases hd : jsonDecode max c b with
  | more s₂ b₂ =>
    obtain ⟨rfl, hoff, hstable⟩ := jsonDecode_more_facts max c b hc s₂ b₂ hd
    simp only [drainF, hd] at h
    obtain ⟨rfl, rfl⟩ := h
    exact ⟨Nat.le_refl _, hoff, hstable⟩
  | emit v s₂ b₂ =>
    obtain ⟨hlt, hoff0⟩ := jsonDecode_emit_lt max c b v s₂ b₂ hd
    simp only [drainF, hd] at h
    have hrec := jsonDrainF_post max b₂ n' s₂ (by omega) (by omega) c' b' h
    exact ⟨by omega, hrec.2.1, hrec.2.2⟩
  | fail k =>
    simp only [drainF, hd] at h
    exact nomatch h
  | panicked =>
    simp only [drainF, hd] at h
    exact nomatch h
termination_by b.length
decreasing_by exact hlt

/-- Draining an extended buffer yields the drain events of the original
buffer followed by a drain of the leftover-plus-appended bytes from the
reached state (and the same terminal outcome). -/
theorem jsonDrain_append (max : Nat) (B : List Nat) (ys : List Nat) (c : JsonCursor) (n m : Nat)
    (hc : c.current_offset ≤ B.length) (hn : B.length < n) (hm : B.length + ys.length < m) :
    drainF (jsonDecode max) m c (B ++ ys) =
      ((drainF (jsonDecode max) n c B).1 ++
        (match (drainF (jsonDecode max) n c B).2 with
          | none => []
          | some (c', B') => (drainF (jsonDecode max) m c' (B' ++ ys)).1),
       match (drainF (jsonDecode max) n c B).2 with
        | none => none
        | some (c', B') => (drainF (jsonDecode max) m c' (B' ++ ys)).2) := by
  obtain ⟨n', rfl⟩ : ∃ n', n = n' + 1 := ⟨n - 1, by omega⟩
  obtain ⟨m', rfl⟩ : ∃ m', m = m' + 1 := ⟨m - 1, by omega⟩
  have hApp := jsonDecode_append max c B ys hc
  cases hd : jsonDecode max c B with
  | more s₂ b₂ =>
    obtain ⟨rfl, hoff, hstable⟩ := jsonDecode_more_facts max c B hc s₂ b₂ hd
    rw [hd] at hApp
    try dsimp only at hApp
    conv_lhs => rw [drainF, hApp]
    simp only [drainF, hd]
    rfl
  | emit v s₂ b₂ =>
    obtain ⟨hlt, hoff0⟩ := jsonDecode_emit_lt max c B v s₂ b₂ hd
    rw [hd] at hApp
    try dsimp only at hApp
    have ih := jsonDrain_append max b₂ ys s₂ n' m' (by omega) (by omega) (by omega)
    conv_lhs => rw [drainF, hApp]
    dsimp only
    rw [ih]
    simp only [drainF, hd]
    try dsimp only
    cases hr : (drainF (jsonDecode max) n' s₂ b₂).2 with
    | none => simp
    | some st =>
      obtain ⟨c₃, B₃⟩ := st
      have hpost := jsonDrainF_post max b₂ n' s₂ (by omega) (by omega) c₃ B₃ hr
      have hcongr := jsonDrainF_congr max (B₃ ++ ys) m' (m' + 1) c₃
        (by simp only [List.length_append]; omega)
        (by simp only [List.length_append]; omega)
      simp only [hcongr]
      simp only [drainF]
      simp [List.cons_append]
  | fail k =>
    rw [hd] at hApp
    try dsimp only at hApp
    conv_lhs => rw [drainF, hApp]
    simp only [drainF, hd]
    rfl
  | panicked =>
    rw [hd] at hApp
    try dsimp only at hApp
    conv_lhs => rw [drainF, hApp]
    simp only [drainF, hd]
    rfl
termination_by B.length
decreasing_by exact hlt

/-- A run over one final chunk is a single drain of the concatenated
buffer: the end-of-input drain after it finds the decoder stable and adds
nothing. -/
theorem jsonRunAux_single (max : Nat) (s : JsonCursor) (b J : List Nat)
    (hc : s.current_offset ≤ b.length) :
    runAux (jsonDecode max) s b [J] =
      (drainF (jsonDecode max) ((b ++ J).length + 1) s (b ++ J)).1 := by
  simp only [runAux]
  generalize hD : drainF (jsonDecode max) ((b ++ J).length + 1) s (b ++ J) = D
  obtain ⟨E, _ | ⟨s₂, b₂⟩⟩ := D
  · rfl
  · have hpost := jsonDrainF_post max (b ++ J) ((b ++ J).length + 1) s
      (le_trans hc (by simp)) (by omega) s₂ b₂ (by rw [hD])
    simp only [runAux, drainF, hpost.2.2]
    simp

/-- Chunk-boundary invariance at the driver level: feeding the chunks one
at a time emits exactly the events of feeding their concatenation at
once. -/
theorem jsonRunAux_join (max : Nat) : ∀ (cs : List (List Nat)) (s : JsonCursor) (b : List Nat),
    s.current_offset ≤ b.length →
    runAux (jsonDecode max) s b cs = runAux (jsonDecode max) s b [cs.flatten] := by
  intro cs
  induction cs with
  | nil =>
    intro s b hc
    rw [show (([] : List (List Nat)).flatten) = [] from rfl, jsonRunAux_single max s b [] hc]
    simp [runAux]
  | cons c₁ cs' ih =>
    intro s b hc
    rw [show ((c₁ :: cs').flatten) = c₁ ++ cs'.flatten from rfl,
      jsonRunAux_single max s b (c₁ ++ cs'.flatten) hc]
    have hassoc : b ++ (c₁ ++ cs'.flatten) = (b ++ c₁) ++ cs'.flatten :=
      (List.append_assoc _ _ _).symm
    rw [hassoc]
    have hDA := jsonDrain_append max (b ++ c₁) cs'.flatten s ((b ++ c₁).length + 1)
      (((b ++ c₁) ++ cs'.flatten).length + 1)
      (le_trans hc (by simp)) (by omega) (by simp only [List.length_append]; omega)
    simp only [runAux]
    rw [congrArg Prod.fst hDA]
    generalize hD : drainF (jsonDecode max) ((b ++ c₁).length + 1) s (b ++ c₁) = D
    obtain ⟨E, _ | ⟨s₂, b₂⟩⟩ := D
    · simp
    · have hpost := jsonDrainF_post max (b ++ c₁) ((b ++ c₁).length + 1) s
        (le_trans hc (by simp)) (by omega) s₂ b₂ (by rw [hD])
      have hinv : s₂.current_offset ≤ b₂.length := le_of_eq hpost.2.1
      dsimp only
      rw [ih s₂ b₂ hinv, jsonRunAux_single max s₂ b₂ cs'.flatten hinv]
      have hcongr := jsonDrainF_congr max (b₂ ++ cs'.flatten)
        ((b₂ ++ cs'.flatten).length + 1) (((b ++ c₁) ++ cs'.flatten).length + 1) s₂
        (by omega) (by simp only [List.length_append] at hpost ⊢; omega)
      rw [hcongr]

/-! ## Branch-level facts used by the max-length and error-policy claims -/

/-- The scan check fails with the max-length kind exactly when the
absolute index (bytes scanned since the last consumed frame) reaches
`max_length`. -/
theorem jsonStep_maxLen (max i : Nat) (c : JsonScanState) (b : Nat) (h : max ≤ i) :
    jsonStep max i c b = .fail .MaxLenReachedError := by
  simp [jsonStep, h]

/-- Below the bound, no byte ever produces the max-length kind (the only
other failure is the codec kind). -/
theorem jsonStep_no_maxLen (max i : Nat) (c : JsonScanState) (b : Nat) (h : i < max) :
    jsonStep max i c b ≠ .fail .MaxLenReachedError := by
  simp only [jsonStep]
  rw [if_neg (by omega)]
  split_ifs <;> simp

/-- A frame completes only at an index below the bound. -/
theorem jsonScan_emitAt_lt_max (max : Nat) (xs : List Nat) :
    ∀ (i : Nat) (c : JsonScanState) (p : Nat) (c' : JsonScanState),
    jsonScan max i c xs = .emitAt p c' → p < max := by
  induction xs with
  | nil => intro i c p c' h; exact nomatch h
  | cons x xs ih =>
    intro i c p c' h
    simp only [jsonScan] at h
    by_cases hi : max ≤ i
    · rw [jsonStep_maxLen max i c x hi] at h
      exact nomatch h
    · split at h
      · exact ih (i + 1) _ p c' h
      · cases h; omega
      · exact nomatch h
      · exact nomatch h

/-- No frame longer than `max_length` is ever handed to the JSON
materializer. -/
theorem jsonDecode_emit_le_max (max : Nat) (c : JsonCursor) (buf f : List Nat) (c' : JsonCursor)
    (b' : List Nat) (h : jsonDecode max c buf = .emit f c' b') : f.length ≤ max := by
  by_cases hB : buf = []
  · subst hB; exact nomatch h
  · simp only [jsonDecode, List.isEmpty_eq_true, hB, if_false] at h
    split at h
    · exact nomatch h
    case _ p s' heq =>
      have hp := jsonScan_emitAt_lt_max max _ _ _ _ _ heq
      cases h
      calc ((buf.take (p + 1)).drop s'.current_obj_pos).length
          ≤ (buf.take (p + 1)).length := by simp [List.length_drop]
        _ ≤ p + 1 := by simp [List.length_take]
        _ ≤ max := hp
    · exact nomatch h
    · exact nomatch h

/-- Protobuf: a recorded length beyond the bound fails with the
max-length kind on the next call with a non-empty buffer, before any
payload byte is consumed. -/
theorem protobufLenDecode_maxLen (max len : Nat) (buf : List Nat) (hbuf : buf ≠ [])
    (hlen : max < len) : protobufLenDecode max len buf = .fail .MaxLenReachedError := by
  have h0 : ¬(buf.length = 0) := by simpa [List.length_eq_zero] using hbuf
  simp only [protobufLenDecode, h0, if_false]
  rw [if_neg (by omega), if_pos (by omega)]

/-- Protobuf: with a recorded length between 1 and the bound and enough
buffered bytes, exactly that many bytes are sliced for the materializer
and the state returns to awaiting-length. -/
theorem protobufLenDecode_emit (max len : Nat) (buf : List Nat) (h1 : 1 ≤ len)
    (h2 : len ≤ max) (h3 : len ≤ buf.length) :
    protobufLenDecode max len buf = .emit (buf.take len) 0 (buf.drop len) := by
  have h0 : ¬(buf.length = 0) := by omega
  simp only [protobufLenDecode, h0, if_false]
  rw [if_neg (by omega), if_neg (by omega), if_pos (by omega)]

/-- Protobuf: no frame longer than `max_length` is ever handed to the
materializer. -/
theorem protobufLenDecode_emit_le_max (max len : Nat) (buf f : List Nat) (s' : Nat)
    (b' : List Nat) (h : protobufLenDecode max len buf = .emit f s' b') : f.length ≤ max := by
  by_cases hb : buf.length = 0
  · simp [protobufLenDecode, hb] at h
  by_cases hl0 : len = 0
  · simp only [protobufLenDecode, hb, if_false, hl0, if_true] at h
    split at h
    · exact nomatch h
    · split at h
      · split at h <;> exact nomatch h
      · exact nomatch h
  by_cases hmax : len > max
  · simp [protobufLenDecode, hb, hl0, hmax] at h
  by_cases hge : buf.length ≥ len
  · simp only [protobufLenDecode, hb, hl0, hmax, hge, if_false, if_true] at h
    cases h
    simp only [List.length_take]
    omega
  · simp [protobufLenDecode, hb, hl0, hmax, hge] at h

/-- Arrow: a recorded frame length beyond the bound fails with the
max-length kind. -/
theorem arrowDecode_maxLen {σ ρ : Type} (extDec : σ → List Nat → Except Unit (σ × Option ρ))
    (max : Nat) (s : ArrowState σ) (buf : List Nat) (hbuf : buf ≠ [])
    (h0 : s.current_obj_len ≠ 0) (hlen : max < s.current_obj_len) :
    arrowDecode extDec max s buf = .fail .MaxLenReachedError := by
  have hb : ¬(buf.length = 0) := by simpa [List.length_eq_zero] using hbuf
  simp only [arrowDecode, hb, if_false, h0]
  rw [if_pos (by omega)]

/-- Arrow: an emitted record comes from a slice of exactly
`current_obj_len ≤ max_length` bytes handed to the external decoder. -/
theorem arrowDecode_emit_le_max {σ ρ : Type} (extDec : σ → List Nat → Except Unit (σ × Option ρ))
    (max : Nat) (s : ArrowState σ) (buf : List Nat) (r : ρ) (s' : ArrowState σ)
    (b' : List Nat) (h : arrowDecode extDec max s buf = .emit r s' b') :
    s.current_obj_len ≤ max ∧ b' = buf.drop s.current_obj_len := by
  by_cases hb : buf.length = 0
  · simp [arrowDecode, hb] at h
  by_cases h0 : s.current_obj_len = 0
  · simp only [arrowDecode, hb, if_false, h0, if_true] at h
    split at h <;> exact nomatch h
  by_cases hmax : s.current_obj_len > max
  · simp [arrowDecode, hb, h0, hmax] at h
  by_cases hge : buf.length ≥ s.current_obj_len
  · simp only [arrowDecode, hb, h0, hmax, hge, if_false, if_true] at h
    split at h
    · cases h
      exact ⟨by omega, rfl⟩
    · exact nomatch h
    · exact nomatch h
  · simp [arrowDecode, hb, h0, hmax, hge] at h

/-- CSV adapter: no emitted item ever carries the max-length kind — the
line codec's max-length failure is surfaced as a codec error. -/
theorem runCsv_no_maxLen {ρ : Type} (parseRow : List Nat → Option ρ) (max : Nat)
    (with_csv_header : Bool) (chunks : List (List Nat)) :
    Ev.err .MaxLenReachedError ∉ runCsv parseRow max with_csv_header chunks := by
  intro hmem
  simp only [runCsv, List.mem_map] at hmem
  obtain ⟨ev, -, hev⟩ := hmem
  cases ev with
  | val line =>
    revert hev
    simp only [csvMapEv]
    cases parseRow line <;> simp
  | err k => simp [csvMapEv] at hev
  | panicEv => simp [csvMapEv] at hev

/-- JSON-lines adapter: no emitted item ever carries the max-length
kind. -/
theorem runJsonNl_no_maxLen {ρ : Type} (parseLine : List Nat → Option ρ) (max : Nat)
    (chunks : List (List Nat)) :
    Ev.err .MaxLenReachedError ∉ runJsonNl parseLine max chunks := by
  intro hmem
  simp only [runJsonNl, List.mem_map] at hmem
  obtain ⟨ev, -, hev⟩ := hmem
  cases ev with
  | val line =>
    revert hev
    simp only [jsonNlMapEv]
    cases parseLine line <;> simp
  | err k => simp [jsonNlMapEv] at hev
  | panicEv => simp [jsonNlMapEv] at hev

/-- Arrow: with no pending length and fewer than 8 buffered bytes the
decoder waits, touching neither the buffer nor the external decoder. -/
theorem arrowDecode_wait_small {σ ρ : Type} (extDec : σ → List Nat → Except Unit (σ × Option ρ))
    (max : Nat) (e : σ) (buf : List Nat) (hne : buf ≠ []) (h8 : buf.length < 8) :
    arrowDecode extDec max (⟨0, e⟩ : ArrowState σ) buf = .more ⟨0, e⟩ buf := by
  have hb : ¬(buf.length = 0) := by simpa [List.length_eq_zero] using hne
  simp [arrowDecode, hb, h8]

/-- Arrow: with no pending length and at least 8 buffered bytes the
decoder records the expected frame length from the 8-byte prefix and
reports "need more input" without advancing the buffer. -/
theorem arrowDecode_read_len {σ ρ : Type} (extDec : σ → List Nat → Except Unit (σ × Option ρ))
    (max : Nat) (e : σ) (buf : List Nat) (h8 : 8 ≤ buf.length) :
    arrowDecode extDec max (⟨0, e⟩ : ArrowState σ) buf = .more ⟨arrowExpectedLen buf, e⟩ buf := by
  have hb : ¬(buf.length = 0) := by omega
  have h8' : ¬(buf.length < 8) := by omega
  simp [arrowDecode, hb, h8']

/-- Arrow: with a pending length within the bound and enough buffered
bytes, exactly that many bytes are sliced off and handed to the external
decoder, and the pending length resets. -/
theorem arrowDecode_slice {σ ρ : Type} (extDec : σ → List Nat → Except Unit (σ × Option ρ))
    (max : Nat) (e : σ) (len : Nat) (buf : List Nat) (h0 : len ≠ 0) (hle : len ≤ max)
    (hbuf : len ≤ buf.length) :
    arrowDecode extDec max (⟨len, e⟩ : ArrowState σ) buf =
      match extDec e (buf.take len) with
      | .ok (e', some r) => .emit r ⟨0, e'⟩ (buf.drop len)
      | .ok (e', none) => .more ⟨0, e'⟩ (buf.drop len)
      | .error _ => .fail .CodecError := by
  have hb : ¬(buf.length = 0) := by omega
  have hmax : ¬(len > max) := by omega
  have hge : buf.length ≥ len := hbuf
  simp [arrowDecode, hb, h0, hmax, hge]

/-! ## Claims -/

/-- Claim C1, counterexample: chunk-boundary invariance fails for the
Protobuf length-prefix decoder and for the Arrow IPC decoder.  Protobuf:
the well-formed stream of two length-prefixed messages `01 70` and
`01 71` delivered as a single chunk emits only the first message — the
call that consumes the second length prefix answers "need more input",
which at end-of-input terminates the stream — while one-byte-at-a-time
delivery emits both messages.  Arrow: two complete 12-byte frames
delivered as a single chunk emit only the first record — the call that
records the second frame's expected length answers "need more input",
terminating the stream at end-of-input with the second frame fully
buffered — while one-byte-at-a-time delivery emits both records (the
external decoder oracle completes a record per slice).  Hence for both
decoders, decoding the whole byte string at once does not emit the same
value sequence as chunked delivery. -/
theorem claim_C1_counterexample :
    runProtobuf 10 [[1, 112, 1, 113]] = [.val [112]] ∧
    runProtobuf 10 [[1], [112], [1], [113]] = [.val [112], .val [113]] ∧
    runProtobuf 10 [[1, 112, 1, 113]] ≠ runProtobuf 10 [[1], [112], [1], [113]] ∧
    runArrow arrowExtSome () 100 [arrowTwoFrames] = [.val ()] ∧
    runArrow arrowExtSome () 100 (arrowTwoFrames.map fun b => [b]) = [.val (), .val ()] ∧
    runArrow arrowExtSome () 100 [arrowTwoFrames]
      ≠ runArrow arrowExtSome () 100 (arrowTwoFrames.map fun b => [b]) :=
  ⟨by decide, by decide, by decide, by decide, by decide, by decide⟩

/-- Claim C1, amended: chunk-boundary invariance holds unconditionally for
the JSON-array decoder — for every max length, every input byte string
(well-formed or not) and every way of splitting it into chunks, the
sequence of emitted events (frames handed to the materializer, errors,
panics) is identical to that of decoding the whole byte string presented
at once.  (For the Protobuf and Arrow decoders invariance fails: a decode
call that merely records a frame length reports "need more input", so at
end-of-input coarser chunkings terminate the stream before trailing
frames are emitted — the counterexample exhibits this for both
decoders.) -/
theorem claim_C1_amended (max : Nat) (chunks : List (List Nat)) :
    runJson max chunks = runJson max [chunks.flatten] := by
  unfold runJson runChunks
  exact jsonRunAux_join max chunks initJsonCursor [] (by decide)

/-- Claim C3: the input `[{"a":1},{"a":2}]` with `max_obj_len = 1024`
yields exactly the two frames `{"a":1}` then `{"a":2}` (the byte slices
handed to the deterministic serde materializer), both when delivered as
one chunk and when delivered byte-by-byte.  Each decode call returns at
most one frame by construction (`Out` carries at most one value). -/
theorem claim_C3 :
    runJson 1024 [[91, 123, 34, 97, 34, 58, 49, 125, 44, 123, 34, 97, 34, 58, 50, 125, 93]]
      = [.val [123, 34, 97, 34, 58, 49, 125], .val [123, 34, 97, 34, 58, 50, 125]] ∧
    runJson 1024
        ([91, 123, 34, 97, 34, 58, 49, 125, 44, 123, 34, 97, 34, 58, 50, 125, 93].map
          (fun b => [b]))
      = [.val [123, 34, 97, 34, 58, 49, 125], .val [123, 34, 97, 34, 58, 50, 125]] :=
  ⟨by decide, by decide⟩

/-- Claim C6: the code contradicts the claim's escape rule.  For the
valid JSON input `[{"a":"\\"}]` (a string containing one escaped
backslash), the second `\` matches the backslash arm again and re-marks
the scanner as escaped, so the closing `"` after `\\` does NOT close the
string (the claim says it does close it): the decoder stays in
quote-open state (shown by the final cursor), never completes the object,
and the run emits no value at all. -/
theorem claim_C6_bug :
    runJson 1024 [[91, 123, 34, 97, 34, 58, 34, 92, 92, 34, 125, 93]] = [] ∧
    jsonDecode 1024 initJsonCursor [91, 123, 34, 97, 34, 58, 34, 92, 92, 34, 125, 93]
      = .more ⟨12, ⟨true, false, true, false, 1, 1⟩⟩
          [91, 123, 34, 97, 34, 58, 34, 92, 92, 34, 125, 93] :=
  ⟨by decide, by decide⟩

/-- Claim C7, counterexample: the max-length bound is NOT enforced against
bytes scanned since the last object start.  With `max_obj_len = 4`, the
input `[   {}` (a 2-byte object preceded by four non-object bytes) is
rejected with a max-length error — the check compares the scan position
since the last consumed frame, so the `[` and the spaces count — although
the claim says such a small object is not rejected. -/
theorem claim_C7_counterexample :
    runJson 4 [[91, 32, 32, 32, 123, 125]] = [.err .MaxLenReachedError] := by decide

/-- Claim C7, amended: the max-length bound is enforced against the scan
position since the last consumed frame (which resets to 0 whenever a
frame is emitted, and counts every byte, not only bytes inside an
object): a byte is rejected with the max-length kind exactly when its
index reaches `max_obj_len`.  A single object larger than the bound is
therefore still rejected incrementally, before being fully buffered; but
a small object preceded by enough other bytes since the last frame is
rejected as well.  A small object close behind the last frame is
accepted. -/
theorem claim_C7_amended :
    (∀ (max i : Nat) (c : JsonScanState) (b : Nat), max ≤ i →
      jsonStep max i c b = .fail .MaxLenReachedError) ∧
    (∀ (max i : Nat) (c : JsonScanState) (b : Nat), i < max →
      jsonStep max i c b ≠ .fail .MaxLenReachedError) ∧
    (∀ (max : Nat) (c : JsonCursor) (buf f : List Nat) (c' : JsonCursor) (b' : List Nat),
      jsonDecode max c buf = .emit f c' b' → c'.current_offset = 0 ∧ b'.length < buf.length) ∧
    runJson 4 [[91, 123, 125]] = [.val [123, 125]] :=
  ⟨jsonStep_maxLen, jsonStep_no_maxLen,
    fun max c buf f c' b' h =>
      ⟨(jsonDecode_emit_lt max c buf f c' b' h).2, (jsonDecode_emit_lt max c buf f c' b' h).1⟩,
    by decide⟩

/-- Claim C7, witness for the amended claim: instances at concrete
inputs — index 4 with bound 4 fails with the max-length kind; index 3
with bound 4 never does; the concrete emit of `[{}` with bound 4 resets
the offset and shrinks the buffer. -/
theorem claim_C7_witness :
    jsonStep 4 4 ⟨true, false, false, false, 0, 0⟩ 123 = .fail .MaxLenReachedError ∧
    jsonStep 4 3 ⟨true, false, false, false, 0, 0⟩ 123 ≠ .fail .MaxLenReachedError ∧
    ((⟨0, ⟨true, true, false, false, 0, 0⟩⟩ : JsonCursor).current_offset = 0 ∧
      ([] : List Nat).length < [91, 123, 125].length) :=
  ⟨claim_C7_amended.1 4 4 ⟨true, false, false, false, 0, 0⟩ 123 (by decide),
    claim_C7_amended.2.1 4 3 ⟨true, false, false, false, 0, 0⟩ 123 (by decide),
    claim_C7_amended.2.2.1 4 initJsonCursor [91, 123, 125] [123, 125]
      ⟨0, ⟨true, true, false, false, 0, 0⟩⟩ [] (by decide)⟩

/-- Claim C8, counterexample: a top-level `,` at depth 0 that does not
immediately follow a completed object is NOT always a codec error.  In
`[{},,{}` the second comma follows another comma, yet the decoder accepts
it (the `delimiter_expected` flag set by the first completed object is
never cleared) and the run emits two frames and no codec error. -/
theorem claim_C8_counterexample :
    runJson 1024 [[91, 123, 125, 44, 44, 123, 125]] = [.val [123, 125], .val [123, 125]] ∧
    Ev.err StreamBodyKind.CodecError ∉ runJson 1024 [[91, 123, 125, 44, 44, 123, 125]] :=
  ⟨by decide, by decide⟩

/-- Claim C8, amended: a second top-level `[` outside a quoted string
while the array is already open is a codec error (as claimed); a
top-level `,` at depth 0 outside a quoted string is a codec error exactly
when `delimiter_expected` is still false, i.e. when no object has been
completed since the decoder was created — completing an object sets the
flag and no byte ever clears it, so after the first completed object
every such comma is accepted. -/
theorem claim_C8_amended :
    (∀ (max i : Nat) (c : JsonScanState), i < max → c.quote_opened = false →
      c.opened_brackets = 0 → c.array_is_opened = true →
      jsonStep max i c 91 = .fail .CodecError) ∧
    (∀ (max i : Nat) (c : JsonScanState), i < max → c.quote_opened = false →
      c.opened_brackets = 0 → c.delimiter_expected = false →
      jsonStep max i c 44 = .fail .CodecError) ∧
    (∀ (max i : Nat) (c : JsonScanState), i < max → c.quote_opened = false →
      c.opened_brackets = 0 → c.delimiter_expected = true →
      jsonStep max i c 44 = .cont { c with escaped := false }) ∧
    (∀ (max i : Nat) (c : JsonScanState) (b : Nat) (c' : JsonScanState),
      jsonStep max i c b = .cont c' → c'.delimiter_expected = c.delimiter_expected) := by
  refine ⟨?_, ?_, ?_, ?_⟩
  · intro max i c hi hq hb ha
    simp [jsonStep, hi, hq, hb, ha, Nat.not_le.mpr hi]
  · intro max i c hi hq hb hd
    simp [jsonStep, hq, hb, hd, Nat.not_le.mpr hi]
  · intro max i c hi hq hb hd
    simp [jsonStep, hq, hb, hd, Nat.not_le.mpr hi]
  · intro max i c b c' h
    simp only [jsonStep] at h
    split_ifs at h <;> injection h with h2 <;> (subst h2; rfl)

/-- Claim C8, witness for the amended claim: concrete instances — a
second `[` fails; a comma before any completed object fails; a comma
after a completed object continues; an ordinary byte preserves the
`delimiter_expected` flag. -/
theorem claim_C8_witness :
    jsonStep 1024 1 ⟨true, false, false, false, 0, 0⟩ 91 = .fail .CodecError ∧
    jsonStep 1024 1 ⟨true, false, false, false, 0, 0⟩ 44 = .fail .CodecError ∧
    jsonStep 1024 3 ⟨true, true, false, false, 0, 0⟩ 44
      = .cont ⟨true, true, false, false, 0, 0⟩ ∧
    (⟨true, true, false, false, 0, 0⟩ : JsonScanState).delimiter_expected
      = (⟨true, true, false, false, 0, 0⟩ : JsonScanState).delimiter_expected :=
  ⟨claim_C8_amended.1 1024 1 ⟨true, false, false, false, 0, 0⟩ (by decide) rfl rfl rfl,
    claim_C8_amended.2.1 1024 1 ⟨true, false, false, false, 0, 0⟩ (by decide) rfl rfl rfl,
    claim_C8_amended.2.2.1 1024 3 ⟨true, true, false, false, 0, 0⟩ (by decide) rfl rfl rfl,
    claim_C8_amended.2.2.2 1024 5 ⟨true, true, false, false, 0, 0⟩ 97
      ⟨true, true, false, false, 0, 0⟩ (by decide)⟩

/-- Claim C10: the code contradicts the claim.  On the one-byte input `}`
from the initial state, the `}` arm executes `opened_brackets -= 1` with
the unsigned counter at 0: the decrement underflows (a panic in debug
builds, wrap-around in release builds), so decode is not total and the
counter is not always positive before the decrement. -/
theorem claim_C10_bug :
    jsonDecode 1024 initJsonCursor [125] = .panicked ∧
    runJson 1024 [[125]] = [.panicEv] :=
  ⟨by decide, by decide⟩

/-- Claim C2, counterexample: for the CSV format an oversized record does
NOT surface as the distinct max-length kind.  A 6-byte line with
`max_obj_len = 3` and no newline makes the line codec fail with its
max-line-length error, but the adapter wraps every framing error as
`StreamBodyKind::CodecError`, so the caller sees a codec error
indistinguishable from a structural parse failure and no max-length-kind
item ever appears. -/
theorem claim_C2_counterexample :
    runCsv (fun l => (some l : Option (List Nat))) 3 false [[97, 97, 97, 97, 97, 97]]
      = [.err .CodecError] ∧
    Ev.err .MaxLenReachedError ∉
      runCsv (fun l => (some l : Option (List Nat))) 3 false [[97, 97, 97, 97, 97, 97]] :=
  ⟨by decide, by decide⟩

/-- Claim C2, amended: for the JSON-array, Protobuf and Arrow decoders the
max-length condition yields exactly the distinct `MaxLenReachedError`
kind, and an oversized frame is never materialized (every frame handed to
a materializer is at most `max_obj_len` bytes; for Arrow the slice handed
to the external decoder is at most `max_obj_len` bytes).  For the CSV and
JSON-lines formats, however, the line codec's oversized-record failure is
surfaced as `CodecError`: no item of those streams ever carries the
max-length kind. -/
theorem claim_C2_amended :
    (∀ (max : Nat) (c : JsonCursor) (buf f : List Nat) (c' : JsonCursor) (b' : List Nat),
      jsonDecode max c buf = .emit f c' b' → f.length ≤ max) ∧
    (∀ (max i : Nat) (c : JsonScanState) (b : Nat), max ≤ i →
      jsonStep max i c b = .fail .MaxLenReachedError) ∧
    (∀ (max len : Nat) (buf f : List Nat) (s' : Nat) (b' : List Nat),
      protobufLenDecode max len buf = .emit f s' b' → f.length ≤ max) ∧
    (∀ (max len : Nat) (buf : List Nat), buf ≠ [] → max < len →
      protobufLenDecode max len buf = .fail .MaxLenReachedError) ∧
    (∀ (σ ρ : Type) (extDec : σ → List Nat → Except Unit (σ × Option ρ)) (max : Nat)
      (s : ArrowState σ) (buf : List Nat) (r : ρ) (s' : ArrowState σ) (b' : List Nat),
      arrowDecode extDec max s buf = .emit r s' b' → s.current_obj_len ≤ max) ∧
    (∀ (σ ρ : Type) (extDec : σ → List Nat → Except Unit (σ × Option ρ)) (max : Nat)
      (s : ArrowState σ) (buf : List Nat), buf ≠ [] → s.current_obj_len ≠ 0 →
      max < s.current_obj_len → arrowDecode extDec max s buf = .fail .MaxLenReachedError) ∧
    (∀ (ρ : Type) (parseRow : List Nat → Option ρ) (max : Nat) (hdr : Bool)
      (chunks : List (List Nat)),
      Ev.err .MaxLenReachedError ∉ runCsv parseRow max hdr chunks) ∧
    (∀ (ρ : Type) (parseLine : List Nat → Option ρ) (max : Nat) (chunks : List (List Nat)),
      Ev.err .MaxLenReachedError ∉ runJsonNl parseLine max chunks) :=
  ⟨jsonDecode_emit_le_max, jsonStep_maxLen,
    protobufLenDecode_emit_le_max, protobufLenDecode_maxLen,
    fun _ _ extDec max s buf r s' b' h => (arrowDecode_emit_le_max extDec max s buf r s' b' h).1,
    fun _ _ extDec max s buf h1 h2 h3 => arrowDecode_maxLen extDec max s buf h1 h2 h3,
    fun _ p max hdr chunks => runCsv_no_maxLen p max hdr chunks,
    fun _ p max chunks => runJsonNl_no_maxLen p max chunks⟩

/-- Claim C2, witness for the amended claim: each conjunct applied at a
concrete input — a concrete JSON frame and a concrete Protobuf frame obey
the bound, concrete oversized lengths fail with the max-length kind for
JSON array / Protobuf / Arrow, a concrete Arrow slice obeys the bound,
and concrete CSV / JSON-lines runs contain no max-length-kind item. -/
theorem claim_C2_witness :
    ([123, 125] : List Nat).length ≤ 4 ∧
    jsonStep 4 4 ⟨true, false, false, false, 0, 0⟩ 32 = .fail .MaxLenReachedError ∧
    ([97, 98] : List Nat).length ≤ 4 ∧
    protobufLenDecode 4 5 [99] = .fail .MaxLenReachedError ∧
    (⟨12, ()⟩ : ArrowState Unit).current_obj_len ≤ 20 ∧
    arrowDecode arrowExtNone 2 (⟨7, ()⟩ : ArrowState Unit) [0] = .fail .MaxLenReachedError ∧
    Ev.err .MaxLenReachedError ∉
      runCsv (fun l => (some l : Option (List Nat))) 3 false [[97, 97, 97, 97, 97, 97]] ∧
    Ev.err .MaxLenReachedError ∉
      runJsonNl (fun l => (some l : Option (List Nat))) 3 [[97, 97, 97, 97, 97, 97]] :=
  ⟨claim_C2_amended.1 4 initJsonCursor [91, 123, 125] [123, 125]
      ⟨0, ⟨true, true, false, false, 0, 0⟩⟩ [] (by decide),
    claim_C2_amended.2.1 4 4 ⟨true, false, false, false, 0, 0⟩ 32 (by decide),
    claim_C2_amended.2.2.1 4 2 [97, 98] [97, 98] 0 [] (by decide),
    claim_C2_amended.2.2.2.1 4 5 [99] (by decide) (by decide),
    claim_C2_amended.2.2.2.2.1 Unit Unit arrowExtSome 20 ⟨12, ()⟩
      [0, 0, 0, 0, 0, 0, 0, 0, 0, 0, 0, 0, 0, 0, 0, 0] () ⟨0, ()⟩ [0, 0, 0, 0] (by decide),
    claim_C2_amended.2.2.2.2.2.1 Unit Unit arrowExtNone 2 ⟨7, ()⟩ [0]
      (by decide) (by decide) (by decide),
    claim_C2_amended.2.2.2.2.2.2.1 (List Nat) (fun l => some l) 3 false
      [[97, 97, 97, 97, 97, 97]],
    claim_C2_amended.2.2.2.2.2.2.2 (List Nat) (fun l => some l) 3
      [[97, 97, 97, 97, 97, 97]]⟩

/-- Claim C4, counterexample: it is not true that every 10-byte sequence
whose 10th byte is at least `0x02` fails to decode: on
`[0,0,0,0,0,0,0,0,0,2]` the decoder stops at the first byte (no
continuation bit) and succeeds with value 0 and one byte read, although
the 10th byte is `0x02`.  The error cases require the first nine bytes to
carry the continuation bit. -/
theorem claim_C4_counterexample :
    decode_varint_slice [0, 0, 0, 0, 0, 0, 0, 0, 0, 2] = .ok 0 1 ∧
    decode_varint_slice [0, 0, 0, 0, 0, 0, 0, 0, 0, 2] ≠ .invalid :=
  ⟨by decide, by decide⟩

/-- Claim C4, amended: the varint decoder is a left inverse of standard
LEB128 encoding for every `u64` value; a 10-byte sequence whose first
nine bytes carry the continuation bit and whose 10th byte is at least
`0x02` but below `0x80` is rejected as an invalid varint (a codec error);
and a sequence of 11 or more bytes whose first ten bytes all carry the
continuation bit (the shape the codec passes to the function when the
10th byte's continuation bit is set, having waited for an 11th byte) is
likewise rejected.  (A bare 10-byte sequence whose last byte has the
continuation bit set violates the function's asserted precondition; the
codec never calls it that way.) -/
theorem claim_C4_amended :
    (∀ v : Nat, v < 18446744073709551616 →
      decode_varint_slice (leb128 v) = .ok v (leb128 v).length) ∧
    (∀ b0 b1 b2 b3 b4 b5 b6 b7 b8 b9 : Nat, 128 ≤ b0 → 128 ≤ b1 → 128 ≤ b2 → 128 ≤ b3 →
      128 ≤ b4 → 128 ≤ b5 → 128 ≤ b6 → 128 ≤ b7 → 128 ≤ b8 → 2 ≤ b9 → b9 < 128 →
      decode_varint_slice [b0, b1, b2, b3, b4, b5, b6, b7, b8, b9] = .invalid) ∧
    (∀ b0 b1 b2 b3 b4 b5 b6 b7 b8 b9 b10 : Nat, 128 ≤ b0 → 128 ≤ b1 → 128 ≤ b2 → 128 ≤ b3 →
      128 ≤ b4 → 128 ≤ b5 → 128 ≤ b6 → 128 ≤ b7 → 128 ≤ b8 → 128 ≤ b9 →
      decode_varint_slice [b0, b1, b2, b3, b4, b5, b6, b7, b8, b9, b10] = .invalid) :=
  ⟨decode_varint_leb128, decode_varint_ten_bytes_overflow, decode_varint_cont_run_invalid⟩

/-- Claim C4, witness for the amended claim: the round trip at 0, 1, 127,
128, `2^32 - 1` and `2^64 - 1`, a concrete overflowing 10-byte sequence,
and a concrete 11-byte continuation run. -/
theorem claim_C4_witness :
    decode_varint_slice (leb128 0) = .ok 0 (leb128 0).length ∧
    decode_varint_slice (leb128 1) = .ok 1 (leb128 1).length ∧
    decode_varint_slice (leb128 127) = .ok 127 (leb128 127).length ∧
    decode_varint_slice (leb128 128) = .ok 128 (leb128 128).length ∧
    decode_varint_slice (leb128 4294967295) = .ok 4294967295 (leb128 4294967295).length ∧
    decode_varint_slice (leb128 18446744073709551615)
      = .ok 18446744073709551615 (leb128 18446744073709551615).length ∧
    decode_varint_slice [128, 128, 128, 128, 128, 128, 128, 128, 128, 2] = .invalid ∧
    decode_varint_slice [129, 130, 131, 132, 133, 134, 135, 136, 137, 138, 0] = .invalid :=
  ⟨claim_C4_amended.1 0 (by norm_num), claim_C4_amended.1 1 (by norm_num),
    claim_C4_amended.1 127 (by norm_num), claim_C4_amended.1 128 (by norm_num),
    claim_C4_amended.1 4294967295 (by norm_num),
    claim_C4_amended.1 18446744073709551615 (by norm_num),
    claim_C4_amended.2.1 128 128 128 128 128 128 128 128 128 2 (by decide) (by decide)
      (by decide) (by decide) (by decide) (by decide) (by decide) (by decide) (by decide)
      (by decide) (by decide),
    claim_C4_amended.2.2 129 130 131 132 133 134 135 136 137 138 0 (by decide) (by decide)
      (by decide) (by decide) (by decide) (by decide) (by decide) (by decide) (by decide)
      (by decide)⟩

/-- Claim C5, counterexample: the claim fails for a declared length
`L = 0`.  After decoding the varint `0x00` the cursor's
`current_obj_len` is 0 again — the very state that means "awaiting a
length" — so although 0 bytes are buffered (≥ L), no empty slice is ever
handed to the materializer and the run of the one-message stream `[0x00]`
emits nothing at all (the claim predicts one decoded empty message). -/
theorem claim_C5_counterexample :
    protobufLenDecode 10 0 [0] = .more 0 [] ∧
    runProtobuf 10 [[0]] = [] :=
  ⟨by decide, by decide⟩

/-- Claim C5, amended: for every declared length `L ≥ 1`: if `L` exceeds
`max_obj_len` the decoder fails with the max-length kind on its next call
with a non-empty buffer, before consuming any payload byte; once at least
`L` bytes are buffered it slices exactly `L` bytes for the materializer
and resets to awaiting-length.  (`L = 0` instead leaves the decoder in
awaiting-length state, so empty messages are skipped.)  The concrete
3-message scenario with the second message longer than `max_obj_len`,
delivered byte-by-byte, yields exactly one decoded message followed by a
max-length error and no third item. -/
theorem claim_C5_amended :
    (∀ (max len : Nat) (buf : List Nat), buf ≠ [] → max < len →
      protobufLenDecode max len buf = .fail .MaxLenReachedError) ∧
    (∀ (max len : Nat) (buf : List Nat), 1 ≤ len → len ≤ max → len ≤ buf.length →
      protobufLenDecode max len buf = .emit (buf.take len) 0 (buf.drop len)) ∧
    runProtobuf 4 [[2], [97], [98], [5], [99], [100], [101], [102], [103], [1], [104]]
      = [.val [97, 98], .err .MaxLenReachedError] :=
  ⟨protobufLenDecode_maxLen, protobufLenDecode_emit, by decide⟩

/-- Claim C5, witness for the amended claim: the max-length failure at a
concrete oversized length and the exact two-byte slice at a concrete
in-bound length. -/
theorem claim_C5_witness :
    protobufLenDecode 4 5 [99] = .fail .MaxLenReachedError ∧
    protobufLenDecode 4 2 [97, 98] = .emit ([97, 98].take 2) 0 ([97, 98].drop 2) :=
  ⟨claim_C5_amended.1 4 5 [99] (by decide) (by decide),
    claim_C5_amended.2.1 4 2 [97, 98] (by decide) (by decide) (by decide)⟩

/-- Claim C9, counterexample: the code does not follow the algorithm the
claim describes.  With `max_obj_len = 2` and 7 buffered bytes (less than
the 8-byte length prefix), the code's decoder hands nothing to the
external Arrow decoder and keeps waiting forever (the run emits no
event), while the claim's algorithm — hand the buffered bytes to the
external decoder on every call, accumulate an undecoded-byte counter,
fail when it exceeds the bound — would fail with a max-length error
(7 > 2), as the run of the spec-modelled decoder shows. -/
theorem claim_C9_counterexample :
    runArrow arrowExtNone () 2 [[0, 0, 0, 0, 0, 0, 0]] = [] ∧
    runArrowSpec arrowSpecExtNone () 2 [[0, 0, 0, 0, 0, 0, 0]] = [.err .MaxLenReachedError] :=
  ⟨by decide, by decide⟩

/-- Claim C9, amended: the Arrow IPC decoder is length-prefix driven.
With no pending length it waits until 8 bytes are buffered, then records
the expected frame length read from the 4-byte little-endian prefix
(continuation-marker aware, plus 4 for the length word, the additions
wrapping modulo `2^32` as the source's `u32` arithmetic does in release
builds) without advancing the buffer; with a pending length it fails with
the max-length kind when that length exceeds `max_obj_len`, and
otherwise, once enough bytes are buffered, slices exactly that many bytes
(prefix included), hands them to the external decoder, resets the pending
length, and emits the record if the external decoder produced one.  The
final conjuncts pin down the recorded length arithmetic: an ordinary
prefix, a continuation-marker prefix, and the two wrap-around cases
(first word `0xFFFFFFFC`, and marker followed by `0xFFFFFFF8`), both of
which record length 0 and so leave the decoder awaiting a length. -/
theorem claim_C9_amended :
    (∀ (σ ρ : Type) (extDec : σ → List Nat → Except Unit (σ × Option ρ)) (max : Nat) (e : σ)
      (buf : List Nat), buf ≠ [] → buf.length < 8 →
      arrowDecode extDec max (⟨0, e⟩ : ArrowState σ) buf = .more ⟨0, e⟩ buf) ∧
    (∀ (σ ρ : Type) (extDec : σ → List Nat → Except Unit (σ × Option ρ)) (max : Nat) (e : σ)
      (buf : List Nat), 8 ≤ buf.length →
      arrowDecode extDec max (⟨0, e⟩ : ArrowState σ) buf
        = .more ⟨arrowExpectedLen buf, e⟩ buf) ∧
    (∀ (σ ρ : Type) (extDec : σ → List Nat → Except Unit (σ × Option ρ)) (max : Nat) (e : σ)
      (len : Nat) (buf : List Nat), buf ≠ [] → len ≠ 0 → max < len →
      arrowDecode extDec max (⟨len, e⟩ : ArrowState σ) buf = .fail .MaxLenReachedError) ∧
    (∀ (σ ρ : Type) (extDec : σ → List Nat → Except Unit (σ × Option ρ)) (max : Nat) (e : σ)
      (len : Nat) (buf : List Nat), len ≠ 0 → len ≤ max → len ≤ buf.length →
      arrowDecode extDec max (⟨len, e⟩ : ArrowState σ) buf =
        match extDec e (buf.take len) with
        | .ok (e', some r) => .emit r ⟨0, e'⟩ (buf.drop len)
        | .ok (e', none) => .more ⟨0, e'⟩ (buf.drop len)
        | .error _ => .fail .CodecError) ∧
    arrowExpectedLen [16, 0, 0, 0, 9, 9, 9, 9] = 20 ∧
    arrowExpectedLen [255, 255, 255, 255, 8, 0, 0, 0] = 16 ∧
    arrowExpectedLen [252, 255, 255, 255, 0, 0, 0, 0] = 0 ∧
    arrowExpectedLen [255, 255, 255, 255, 248, 255, 255, 255] = 0 :=
  ⟨fun _ _ extDec max e buf h1 h2 => arrowDecode_wait_small extDec max e buf h1 h2,
    fun _ _ extDec max e buf h8 => arrowDecode_read_len extDec max e buf h8,
    fun _ _ extDec max e len buf h1 h0 h3 => arrowDecode_maxLen extDec max ⟨len, e⟩ buf h1 h0 h3,
    fun _ _ extDec max e len buf h0 hle hbuf => arrowDecode_slice extDec max e len buf h0 hle hbuf,
    by decide, by decide, by decide, by decide⟩

/-- Claim C9, witness for the amended claim: each branch applied at a
concrete input — a 3-byte buffer waits; an 8-byte buffer records the
expected length; length 7 with bound 2 fails with the max-length kind;
length 2 within bound 20 slices two bytes and consults the external
decoder. -/
theorem claim_C9_witness :
    arrowDecode arrowExtNone 100 (⟨0, ()⟩ : ArrowState Unit) [1, 2, 3]
      = .more ⟨0, ()⟩ [1, 2, 3] ∧
    arrowDecode arrowExtNone 100 (⟨0, ()⟩ : ArrowState Unit) [16, 0, 0, 0, 9, 9, 9, 9]
      = .more ⟨arrowExpectedLen [16, 0, 0, 0, 9, 9, 9, 9], ()⟩ [16, 0, 0, 0, 9, 9, 9, 9] ∧
    arrowDecode arrowExtNone 2 (⟨7, ()⟩ : ArrowState Unit) [0] = .fail .MaxLenReachedError ∧
    arrowDecode arrowExtSome 20 (⟨2, ()⟩ : ArrowState Unit) [5, 6, 7]
      = match arrowExtSome () ([5, 6, 7].take 2) with
        | .ok (e', some r) => .emit r ⟨0, e'⟩ ([5, 6, 7].drop 2)
        | .ok (e', none) => .more ⟨0, e'⟩ ([5, 6, 7].drop 2)
        | .error _ => .fail .CodecError :=
  ⟨claim_C9_amended.1 Unit Unit arrowExtNone 100 () [1, 2, 3] (by decide) (by decide),
    claim_C9_amended.2.1 Unit Unit arrowExtNone 100 () [16, 0, 0, 0, 9, 9, 9, 9] (by decide),
    claim_C9_amended.2.2.1 Unit Unit arrowExtNone 2 () 7 [0] (by decide) (by decide) (by decide),
    claim_C9_amended.2.2.2.1 Unit Unit arrowExtSome 20 () 2 [5, 6, 7] (by decide) (by decide)
      (by decide)⟩

end ReqwestStreams
